import Mathlib

/-!
Shallow embedding of the run-event streaming server (`src/unnamed/part_000`).

The server is a single-threaded Node.js HTTP server.  Its mutable state is:
  - `runs`    : Map runId → { id, events, clients, done }
  - `threads` : Map threadId → { id, history }
Each synchronous block of JavaScript executes atomically with respect to the
event loop; we model every such block as one operation (`Op`) on a state
(`ServerState`) and study arbitrary interleavings of those operations.

Modelling decisions, each tied to the source:
  - `randomUUID()` identifiers are modelled by a fresh-id counter `nextId`
    (the spec calls for "a proper unique-id generator"; collisions ignored).
  - An SSE client (`res`) is a `Sink`: its `written` list records the events
    the server wrote into it; `closed` models `res.end()`; `broken` models a
    failed transport, on which `res.write` delivers nothing (the Node `ServerResponse.write` on a destroyed socket does not throw
    synchronously; the data is simply lost).
  - Each `res` object is subscribed to at most one run, so sinks are stored
    inside the `clients` list of the owning run.
  - Opaque JSON payloads (tool input/output) are modelled as strings.
-/

namespace AgentServer

/-- The event variants produced by the pipeline (source lines 172-180). -/
inductive Event where
  | tool_start (tool : String) (input : String) (cardId : Nat)
  | tool_done (tool : String) (output : String) (cardId : Nat)
  | assistant_done (text : String) (threadId : Nat)
deriving DecidableEq, Repr

/-- One SSE client response object, as seen from the server. -/
structure Sink where
  sid : Nat
  written : List Event
  closed : Bool
  broken : Bool
deriving DecidableEq, Repr

/-- Run state: `{ id, events: [], clients: new Set(), done: false }` (line 157). -/
structure Run where
  id : Nat
  events : List Event
  clients : List Sink
  done : Bool
deriving DecidableEq, Repr

/-- Thread state: `{ id, history: [] }` (line 164). -/
structure Thread where
  id : Nat
  history : List String
deriving DecidableEq, Repr

/-- The process-wide mutable state: the two registries plus the id counter. -/
structure ServerState where
  runs : Nat → Option Run
  threads : Nat → Option Thread
  nextId : Nat

def initState : ServerState :=
  { runs := fun _ => none, threads := fun _ => none, nextId := 0 }

/-- `Map.set` on a registry. -/
def setRun (m : Nat → Option Run) (k : Nat) (v : Run) : Nat → Option Run :=
  fun k' => if k' = k then some v else m k'

def setThread (m : Nat → Option Thread) (k : Nat) (v : Thread) : Nat → Option Thread :=
  fun k' => if k' = k then some v else m k'

/-- `res.write(payload)`: on a broken or already-ended response the data is
not delivered; otherwise it is appended to what the observer receives. -/
def writeSink (ev : Event) (s : Sink) : Sink :=
  if s.broken || s.closed then s else { s with written := s.written ++ [ev] }

/-- `client.end()` (line 184). -/
def closeSink (s : Sink) : Sink :=
  { s with closed := true }

/-- `pushEvent(run, ev)` (lines 40-46): appends `ev` to `run.events`, then
writes the payload to every client in `run.clients`.  There is no `done`
check and no per-sink error handling. -/
def pushEvent (st : ServerState) (rid : Nat) (ev : Event) : ServerState :=
  match st.runs rid with
  | none => st
  | some r =>
      let r' : Run :=
        { r with events := r.events ++ [ev], clients := r.clients.map (writeSink ev) }
      { st with runs := setRun st.runs rid r' }

/-- The `finally` block of the pipeline (lines 181-186): sets `run.done`,
then calls `client.end()` on every client.  The `clients` set is NOT
cleared; entries are removed only by the `close` event of each connection. -/
def finishRun (st : ServerState) (rid : Nat) : ServerState :=
  match st.runs rid with
  | none => st
  | some r =>
      let r' : Run := { r with done := true, clients := r.clients.map closeSink }
      { st with runs := setRun st.runs rid r' }

/-- The connection-close callback (`req.on`, event `close`) registered at attach (lines 135-137):
`run.clients.delete(res)`. -/
def connClose (st : ServerState) (rid : Nat) (sid : Nat) : ServerState :=
  match st.runs rid with
  | none => st
  | some r =>
      let r' : Run := { r with clients := r.clients.filter (fun s => s.sid != sid) }
      { st with runs := setRun st.runs rid r' }

/-- Transport failure of the connection of one observer: subsequent writes to
that sink are dropped.  This is an environment event, not server code. -/
def breakSink (st : ServerState) (rid : Nat) (sid : Nat) : ServerState :=
  match st.runs rid with
  | none => st
  | some r =>
      let mark : Sink → Sink := fun s => if s.sid = sid then { s with broken := true } else s
      let r' : Run := { r with clients := r.clients.map mark }
      { st with runs := setRun st.runs rid r' }

/-- Outcome of `GET /api/stream/:id`. -/
inductive StreamOutcome where
  | notFound
  | attached (sid : Nat)
deriving DecidableEq, Repr

/-- The SSE stream handler (lines 116-139): `runs.get(runId)`; 404 when
absent; otherwise register the response in `run.clients` and replay every
event of `run.events` into it.  The whole block is synchronous, hence
atomic with respect to any concurrent `pushEvent`. -/
def handleStream (st : ServerState) (rid : Nat) : StreamOutcome × ServerState :=
  match st.runs rid with
  | none => (StreamOutcome.notFound, st)
  | some r =>
      let sid := st.nextId
      let sink : Sink := { sid := sid, written := r.events, closed := false, broken := false }
      (StreamOutcome.attached sid,
        { st with runs := setRun st.runs rid ({ r with clients := r.clients ++ [sink] }),
                  nextId := st.nextId + 1 })

/-- A parsed JSON value, discriminated only as far as the code needs:
`typeof message` differing from string (line 152). -/
inductive JVal where
  | str (s : String)
  | notStr
deriving DecidableEq, Repr

/-- The parsed body of `POST /api/chat`.  `threadId` is modelled as
`Option Nat`: `none` covers absent, non-string and falsy values, none of
which can match a stored thread key (line 161). -/
structure ChatBody where
  message : Option JVal
  threadId : Option Nat
deriving DecidableEq, Repr

/-- The JSON the chat handler sends back. -/
structure ChatResponse where
  status : Nat
  runId : Option Nat
  threadId : Option Nat
  error : Option String
deriving DecidableEq, Repr

/-- Model of `String.prototype.trim`: drop leading and trailing
whitespace.  Implemented by structural recursion on the character list so
that concrete instances evaluate inside the kernel. -/
def jsTrim (s : String) : String :=
  String.mk (((s.data.dropWhile Char.isWhitespace).reverse.dropWhile Char.isWhitespace).reverse)

/-- Validity check of line 152: `message` is a string and `message.trim()` is truthy. -/
def validMessage : Option JVal → Bool
  | some (JVal.str s) => !(jsTrim s == "")
  | _ => false

/-- Thread allocation branch (lines 163-165): a fresh thread id is drawn,
an empty-history thread is stored, and its id is returned. -/
def chatFresh (st1 : ServerState) (runId : Nat) : ChatResponse × ServerState :=
  let tid := st1.nextId
  ({ status := 200, runId := some runId, threadId := some tid, error := none },
   { st1 with threads := setThread st1.threads tid { id := tid, history := [] },
              nextId := st1.nextId + 1 })

/-- The run object built at line 157. -/
def freshRun (n : Nat) : Run :=
  { id := n, events := [], clients := [], done := false }

/-- The state right after `runs.set(runId, run)` (line 158). -/
def chatSt1 (st : ServerState) : ServerState :=
  { st with runs := setRun st.runs st.nextId (freshRun st.nextId), nextId := st.nextId + 1 }

/-- The body of the chat handler after validation (lines 156-166, 189):
create and store the run, then resolve or create the thread, then answer
`{ runId, threadId }`. -/
def chatCore (st : ServerState) (tidOpt : Option Nat) : ChatResponse × ServerState :=
  let runId := st.nextId
  let st1 := chatSt1 st
  match tidOpt with
  | some t =>
      match st1.threads t with
      | some _ =>
          ({ status := 200, runId := some runId, threadId := some t, error := none }, st1)
      | none => chatFresh st1 runId
  | none => chatFresh st1 runId

/-- `POST /api/chat` (lines 148-194).  `body = none` models a JSON parse
failure (outer catch, line 191).  The pipeline IIFE is modelled as the
separate operation sequence `pipelineOps` below. -/
def handleChat (st : ServerState) (body : Option ChatBody) : ChatResponse × ServerState :=
  match body with
  | none => ({ status := 400, runId := none, threadId := none, error := some "Invalid JSON" }, st)
  | some data =>
      match data.message with
      | some (JVal.str m) =>
          if jsTrim m = "" then
            ({ status := 400, runId := none, threadId := none,
               error := some "message is required" }, st)
          else chatCore st data.threadId
      | _ => ({ status := 400, runId := none, threadId := none,
                error := some "message is required" }, st)

/-- The atomic operations of the event loop. -/
inductive Op where
  | chat (body : Option ChatBody)
  | attach (rid : Nat)
  | push (rid : Nat) (ev : Event)
  | finish (rid : Nat)
  | connClose (rid : Nat) (sid : Nat)
  | breakSink (rid : Nat) (sid : Nat)
deriving DecidableEq, Repr

def step (st : ServerState) : Op → ServerState
  | Op.chat body => (handleChat st body).2
  | Op.attach rid => (handleStream st rid).2
  | Op.push rid ev => pushEvent st rid ev
  | Op.finish rid => finishRun st rid
  | Op.connClose rid sid => connClose st rid sid
  | Op.breakSink rid sid => breakSink st rid sid

def applyOps (st : ServerState) : List Op → ServerState
  | [] => st
  | op :: rest => applyOps (step st op) rest

/-- The events appended to run `rid` by an operation sequence, in order. -/
def pushedTo (rid : Nat) : List Op → List Event
  | [] => []
  | Op.push r ev :: rest =>
      if r = rid then ev :: pushedTo rid rest else pushedTo rid rest
  | _ :: rest => pushedTo rid rest

/-- Whether the sequence contains a `finish` for run `rid`. -/
def hasFinish (rid : Nat) : List Op → Bool
  | [] => false
  | Op.finish r :: rest => if r = rid then true else hasFinish rid rest
  | _ :: rest => hasFinish rid rest

/-- The producer-side operations (push / finish) targeting run `rid`, in
order; in the real program these come only from the single pipeline of the run. -/
def prodOps (rid : Nat) : List Op → List Op
  | [] => []
  | Op.push r ev :: rest =>
      if r = rid then Op.push r ev :: prodOps rid rest else prodOps rid rest
  | Op.finish r :: rest =>
      if r = rid then Op.finish r :: prodOps rid rest else prodOps rid rest
  | _ :: rest => prodOps rid rest

/-- The echo collaborator `generateAssistantResponse` (lines 50-55). -/
def generateAssistantResponse (message : String) (hitCount : Nat) : String :=
  "You said: " ++ message ++ ". I found " ++ toString hitCount ++ " search result(s)."

/-- The fake search results payload (line 174), opaque to the engine. -/
def fakeResults : String := "hits: [Placeholder]"

/-- The terminal event of a pipeline invocation: the successful
`assistant_done` (line 178), or, when the response-generation step rejects,
the catch block error-text `assistant_done` (line 180). -/
def pipelineTerminal (tid : Nat) (gen : Except String String) : Event :=
  match gen with
  | Except.ok text => Event.assistant_done text tid
  | Except.error e => Event.assistant_done ("An error occurred: " ++ e) tid

/-- The events the pipeline IIFE (lines 168-187) appends to its run.
`gen` is the outcome of `await generateAssistantResponse(...)`: the
`tool_start`/`tool_done` pushes precede that await, and a rejection is
caught and converted into the error-text terminal event. -/
def pipelineEvents (message : String) (cardId : Nat) (tid : Nat)
    (gen : Except String String) : List Event :=
  [Event.tool_start "search" message cardId,
   Event.tool_done "search" fakeResults cardId,
   pipelineTerminal tid gen]

/-- The full operation sequence of one pipeline invocation: its pushes in
program order, then the finish performed by the `finally` block. -/
def pipelineOps (rid : Nat) (message : String) (cardId : Nat) (tid : Nat)
    (gen : Except String String) : List Op :=
  ((pipelineEvents message cardId tid gen).map (Op.push rid)) ++ [Op.finish rid]

def isTerminal : Event → Bool
  | Event.assistant_done _ _ => true
  | _ => false

def countTerminal (l : List Event) : Nat :=
  (l.filter isTerminal).length

/-- Registry well-formedness: every stored key is below the id counter; a
freshly drawn id therefore never collides with an existing entry. -/
def WF (st : ServerState) : Prop :=
  (∀ k, st.nextId ≤ k → st.runs k = none) ∧ (∀ k, st.nextId ≤ k → st.threads k = none)

/-- The replay invariant: every healthy attached sink has received exactly
the event log of the run. -/
def INV (st : ServerState) : Prop :=
  ∀ rid r, st.runs rid = some r → ∀ s, s ∈ r.clients →
    s.broken = false → s.closed = false → s.written = r.events

/-! ## The static-file branch (lines 77-108) -/

/-- Split a character list into segments at every slash, as
`String.prototype.split` / path parsing would. -/
def splitSegs : List Char → List (List Char)
  | [] => [[]]
  | c :: rest =>
      if c = '/' then [] :: splitSegs rest
      else
        match splitSegs rest with
        | seg :: segs => (c :: seg) :: segs
        | [] => [[c]]

/-- One normalization step of POSIX path resolution: empty and dot
segments vanish, dot-dot pops the last accumulated segment. -/
def normSegs (acc : List (List Char)) : List (List Char) → List (List Char)
  | [] => acc
  | seg :: rest =>
      if seg = [] || seg = ['.'] then normSegs acc rest
      else if seg = ['.', '.'] then normSegs acc.dropLast rest
      else normSegs (acc ++ [seg]) rest

/-- Join segments back with slashes. -/
def joinSegs : List (List Char) → List Char
  | [] => []
  | [seg] => seg
  | seg :: rest => seg ++ '/' :: joinSegs rest

/-- Boolean list-prefix test (the semantics of `String.startsWith`). -/
def listIsPrefixOf : List Char → List Char → Bool
  | [], _ => true
  | _ :: _, [] => false
  | a :: as, b :: bs => a == b && listIsPrefixOf as bs

/-- Model of `path.resolve` applied to `publicDir` and dot-prefixed `filePath`
(line 85): concatenate (inserting the dot segment) and normalize. -/
def resolveUnder (publicDir : String) (filePath : String) : String :=
  String.mk ('/' :: joinSegs (normSegs []
    (splitSegs (publicDir.data ++ '/' :: '.' :: filePath.data))))

/-- The traversal guard of line 86: `resolved.startsWith(publicDir)`. -/
def staticAllowed (publicDir : String) (filePath : String) : Bool :=
  listIsPrefixOf publicDir.data (resolveUnder publicDir filePath).data

/-- Whether path `p` lies inside directory `dir` (it is `dir` itself or a
path below `dir`). -/
def insideDir (dir : String) (p : String) : Bool :=
  p == dir || listIsPrefixOf (dir.data ++ ['/']) p.data

/-! ## Registry lemmas -/

theorem setRun_self (m : Nat → Option Run) (k : Nat) (v : Run) : setRun m k v k = some v := by
  simp [setRun]

theorem setRun_other (m : Nat → Option Run) (k k' : Nat) (v : Run) (h : k' ≠ k) :
    setRun m k v k' = m k' := by
  simp [setRun, h]

theorem setThread_self (m : Nat → Option Thread) (k : Nat) (v : Thread) :
    setThread m k v k = some v := by
  simp [setThread]

theorem setThread_other (m : Nat → Option Thread) (k k' : Nat) (v : Thread) (h : k' ≠ k) :
    setThread m k v k' = m k' := by
  simp [setThread, h]

theorem applyOps_append (st : ServerState) (l₁ l₂ : List Op) :
    applyOps st (l₁ ++ l₂) = applyOps (applyOps st l₁) l₂ := by
  induction l₁ generalizing st with
  | nil => rfl
  | cons op rest ih => simp [applyOps, ih]

theorem runs_lt (st : ServerState) (rid : Nat) (r : Run)
    (hwf : WF st) (h : st.runs rid = some r) : rid < st.nextId := by
  by_contra hge
  have h0 := hwf.1 rid (by omega)
  rw [h] at h0
  exact Option.noConfusion h0

/-! ## Well-formedness preservation -/

theorem wf_initState : WF initState :=
  ⟨fun _ _ => rfl, fun _ _ => rfl⟩

theorem wf_setRun_existing (st : ServerState) (rid : Nat) (r0 r : Run)
    (hwf : WF st) (h : st.runs rid = some r0) :
    WF { st with runs := setRun st.runs rid r } := by
  have hlt := runs_lt st rid r0 hwf h
  refine ⟨fun k hk => ?_, fun k hk => ?_⟩
  · have hk' : st.nextId ≤ k := hk
    have hne : k ≠ rid := by omega
    show setRun st.runs rid r k = none
    simp only [setRun, if_neg hne]
    exact hwf.1 k hk'
  · exact hwf.2 k hk

theorem wf_chatSt1 (st : ServerState) (hwf : WF st) : WF (chatSt1 st) := by
  refine ⟨fun k hk => ?_, fun k hk => ?_⟩
  · have hk' : st.nextId + 1 ≤ k := hk
    have hne : k ≠ st.nextId := by omega
    show setRun st.runs st.nextId (freshRun st.nextId) k = none
    simp only [setRun, if_neg hne]
    exact hwf.1 k (by omega)
  · have hk' : st.nextId + 1 ≤ k := hk
    exact hwf.2 k (by omega)

theorem wf_chatFresh (st1 : ServerState) (runId : Nat) (hwf : WF st1) :
    WF (chatFresh st1 runId).2 := by
  refine ⟨fun k hk => ?_, fun k hk => ?_⟩
  · have hk' : st1.nextId + 1 ≤ k := hk
    exact hwf.1 k (by omega)
  · have hk' : st1.nextId + 1 ≤ k := hk
    have hne : k ≠ st1.nextId := by omega
    show setThread st1.threads st1.nextId { id := st1.nextId, history := [] } k = none
    simp only [setThread, if_neg hne]
    exact hwf.2 k (by omega)

theorem wf_chatCore (st : ServerState) (tidOpt : Option Nat) (hwf : WF st) :
    WF (chatCore st tidOpt).2 := by
  have hwf1 : WF (chatSt1 st) := wf_chatSt1 st hwf
  unfold chatCore
  dsimp only
  cases tidOpt with
  | none => exact wf_chatFresh _ _ hwf1
  | some t =>
    dsimp only
    cases h : (chatSt1 st).threads t with
    | none => exact wf_chatFresh _ _ hwf1
    | some th => exact hwf1

theorem wf_handleChat (st : ServerState) (body : Option ChatBody) (hwf : WF st) :
    WF (handleChat st body).2 := by
  unfold handleChat
  cases body with
  | none => exact hwf
  | some data =>
    dsimp only
    cases hm : data.message with
    | none => exact hwf
    | some v =>
      cases v with
      | notStr => exact hwf
      | str m =>
        dsimp only
        by_cases ht : jsTrim m = ""
        · simp only [ht, if_pos rfl]; exact hwf
        · simp only [if_neg ht]; exact wf_chatCore st data.threadId hwf

theorem wf_handleStream (st : ServerState) (rid : Nat) (hwf : WF st) :
    WF (handleStream st rid).2 := by
  unfold handleStream
  cases h : st.runs rid with
  | none => exact hwf
  | some r =>
    dsimp only
    have hlt := runs_lt st rid r hwf h
    refine ⟨fun k hk => ?_, fun k hk => ?_⟩
    · have hk' : st.nextId + 1 ≤ k := hk
      have hne : k ≠ rid := by omega
      show setRun st.runs rid _ k = none
      simp only [setRun, if_neg hne]
      exact hwf.1 k (by omega)
    · have hk' : st.nextId + 1 ≤ k := hk
      exact hwf.2 k (by omega)

theorem wf_step (st : ServerState) (op : Op) (hwf : WF st) : WF (step st op) := by
  cases op with
  | chat body => exact wf_handleChat st body hwf
  | attach rid => exact wf_handleStream st rid hwf
  | push rid ev =>
    show WF (pushEvent st rid ev)
    unfold pushEvent
    cases h : st.runs rid with
    | none => exact hwf
    | some r => exact wf_setRun_existing st rid r _ hwf h
  | finish rid =>
    show WF (finishRun st rid)
    unfold finishRun
    cases h : st.runs rid with
    | none => exact hwf
    | some r => exact wf_setRun_existing st rid r _ hwf h
  | connClose rid sid =>
    show WF (connClose st rid sid)
    unfold connClose
    cases h : st.runs rid with
    | none => exact hwf
    | some r => exact wf_setRun_existing st rid r _ hwf h
  | breakSink rid sid =>
    show WF (breakSink st rid sid)
    unfold breakSink
    cases h : st.runs rid with
    | none => exact hwf
    | some r => exact wf_setRun_existing st rid r _ hwf h

theorem wf_applyOps (st : ServerState) (ops : List Op) (hwf : WF st) :
    WF (applyOps st ops) := by
  induction ops generalizing st with
  | nil => exact hwf
  | cons op rest ih => exact ih (step st op) (wf_step st op hwf)

/-! ## The replay invariant -/

theorem inv_initState : INV initState := by
  intro rid r hr
  exact Option.noConfusion hr

theorem inv_chatSt1 (st : ServerState) (hinv : INV st) : INV (chatSt1 st) := by
  intro rid' rr hr' s hs hb hc
  have hr2 : setRun st.runs st.nextId (freshRun st.nextId) rid' = some rr := hr'
  by_cases he : rid' = st.nextId
  · subst he
    rw [setRun_self] at hr2
    injection hr2 with h2
    subst h2
    simp [freshRun] at hs
  · rw [setRun_other _ _ _ _ he] at hr2
    exact hinv rid' rr hr2 s hs hb hc

theorem inv_chatFresh (st1 : ServerState) (runId : Nat) (hinv : INV st1) :
    INV (chatFresh st1 runId).2 := by
  intro rid' rr hr' s hs hb hc
  exact hinv rid' rr hr' s hs hb hc

theorem inv_chatCore (st : ServerState) (tidOpt : Option Nat) (hinv : INV st) :
    INV (chatCore st tidOpt).2 := by
  have h1 := inv_chatSt1 st hinv
  unfold chatCore
  dsimp only
  cases tidOpt with
  | none => exact inv_chatFresh _ _ h1
  | some t =>
    dsimp only
    cases ht : (chatSt1 st).threads t with
    | none => exact inv_chatFresh _ _ h1
    | some th => exact h1

theorem inv_handleChat (st : ServerState) (body : Option ChatBody) (hinv : INV st) :
    INV (handleChat st body).2 := by
  unfold handleChat
  cases body with
  | none => exact hinv
  | some data =>
    dsimp only
    cases hm : data.message with
    | none => exact hinv
    | some v =>
      cases v with
      | notStr => exact hinv
      | str m =>
        dsimp only
        by_cases ht : jsTrim m = ""
        · simp only [ht, if_pos rfl]; exact hinv
        · simp only [if_neg ht]; exact inv_chatCore st data.threadId hinv

theorem inv_handleStream (st : ServerState) (rid0 : Nat) (hinv : INV st) :
    INV (handleStream st rid0).2 := by
  unfold handleStream
  cases h0 : st.runs rid0 with
  | none => exact hinv
  | some r0 =>
    dsimp only
    intro rid' rr hr' s hs hb hc
    by_cases he : rid' = rid0
    · subst he
      have hr2 : setRun st.runs rid'
          { r0 with clients := r0.clients ++
              [{ sid := st.nextId, written := r0.events, closed := false, broken := false }] }
          rid' = some rr := hr'
      rw [setRun_self] at hr2
      injection hr2 with h2
      subst h2
      rcases List.mem_append.mp hs with hold | hnew
      · exact hinv rid' r0 h0 s hold hb hc
      · rw [List.mem_singleton.mp hnew]
    · have hr2 : setRun st.runs rid0 _ rid' = some rr := hr'
      rw [setRun_other _ _ _ _ he] at hr2
      exact hinv rid' rr hr2 s hs hb hc

theorem inv_pushEvent (st : ServerState) (rid0 : Nat) (ev : Event) (hinv : INV st) :
    INV (pushEvent st rid0 ev) := by
  unfold pushEvent
  cases h0 : st.runs rid0 with
  | none => exact hinv
  | some r0 =>
    dsimp only
    intro rid' rr hr' s hs hb hc
    by_cases he : rid' = rid0
    · subst he
      have hr2 : setRun st.runs rid'
          { r0 with events := r0.events ++ [ev], clients := r0.clients.map (writeSink ev) }
          rid' = some rr := hr'
      rw [setRun_self] at hr2
      injection hr2 with h2
      subst h2
      rcases List.mem_map.mp hs with ⟨s0, hs0, hw⟩
      subst hw
      by_cases hb0 : s0.broken = true
      · exfalso
        have : writeSink ev s0 = s0 := by simp [writeSink, hb0]
        rw [this] at hb
        rw [hb] at hb0
        exact Bool.noConfusion hb0
      · have hb0' : s0.broken = false := by
          cases hbv : s0.broken
          · rfl
          · exact absurd hbv hb0
        by_cases hc0 : s0.closed = true
        · exfalso
          have : writeSink ev s0 = s0 := by simp [writeSink, hc0]
          rw [this] at hc
          rw [hc] at hc0
          exact Bool.noConfusion hc0
        · have hc0' : s0.closed = false := by
            cases hcv : s0.closed
            · rfl
            · exact absurd hcv hc0
          have hws : writeSink ev s0 = { s0 with written := s0.written ++ [ev] } := by
            simp [writeSink, hb0', hc0']
          rw [hws]
          show s0.written ++ [ev] = r0.events ++ [ev]
          rw [hinv rid' r0 h0 s0 hs0 hb0' hc0']
    · have hr2 : setRun st.runs rid0 _ rid' = some rr := hr'
      rw [setRun_other _ _ _ _ he] at hr2
      exact hinv rid' rr hr2 s hs hb hc

theorem inv_finishRun (st : ServerState) (rid0 : Nat) (hinv : INV st) :
    INV (finishRun st rid0) := by
  unfold finishRun
  cases h0 : st.runs rid0 with
  | none => exact hinv
  | some r0 =>
    dsimp only
    intro rid' rr hr' s hs hb hc
    by_cases he : rid' = rid0
    · subst he
      have hr2 : setRun st.runs rid'
          { r0 with done := true, clients := r0.clients.map closeSink } rid' = some rr := hr'
      rw [setRun_self] at hr2
      injection hr2 with h2
      subst h2
      exfalso
      rcases List.mem_map.mp hs with ⟨s0, _, hw⟩
      subst hw
      simp [closeSink] at hc
    · have hr2 : setRun st.runs rid0 _ rid' = some rr := hr'
      rw [setRun_other _ _ _ _ he] at hr2
      exact hinv rid' rr hr2 s hs hb hc

theorem inv_connClose (st : ServerState) (rid0 sid : Nat) (hinv : INV st) :
    INV (connClose st rid0 sid) := by
  unfold connClose
  cases h0 : st.runs rid0 with
  | none => exact hinv
  | some r0 =>
    dsimp only
    intro rid' rr hr' s hs hb hc
    by_cases he : rid' = rid0
    · subst he
      have hr2 : setRun st.runs rid'
          { r0 with clients := r0.clients.filter (fun s => s.sid != sid) } rid' = some rr := hr'
      rw [setRun_self] at hr2
      injection hr2 with h2
      subst h2
      exact hinv rid' r0 h0 s (List.mem_of_mem_filter hs) hb hc
    · have hr2 : setRun st.runs rid0 _ rid' = some rr := hr'
      rw [setRun_other _ _ _ _ he] at hr2
      exact hinv rid' rr hr2 s hs hb hc

theorem inv_breakSink (st : ServerState) (rid0 sid : Nat) (hinv : INV st) :
    INV (breakSink st rid0 sid) := by
  unfold breakSink
  cases h0 : st.runs rid0 with
  | none => exact hinv
  | some r0 =>
    dsimp only
    intro rid' rr hr' s hs hb hc
    by_cases he : rid' = rid0
    · subst he
      have hr2 : setRun st.runs rid' _ rid' = some rr := hr'
      rw [setRun_self] at hr2
      injection hr2 with h2
      subst h2
      rcases List.mem_map.mp hs with ⟨s0, hs0, hw⟩
      by_cases hsid : s0.sid = sid
      · exfalso
        simp only [hsid, if_pos rfl] at hw
        rw [← hw] at hb
        exact Bool.noConfusion hb
      · simp only [if_neg hsid] at hw
        subst hw
        exact hinv rid' r0 h0 s0 hs0 hb hc
    · have hr2 : setRun st.runs rid0 _ rid' = some rr := hr'
      rw [setRun_other _ _ _ _ he] at hr2
      exact hinv rid' rr hr2 s hs hb hc

theorem inv_step (st : ServerState) (op : Op) (hinv : INV st) : INV (step st op) := by
  cases op with
  | chat body => exact inv_handleChat st body hinv
  | attach rid => exact inv_handleStream st rid hinv
  | push rid ev => exact inv_pushEvent st rid ev hinv
  | finish rid => exact inv_finishRun st rid hinv
  | connClose rid sid => exact inv_connClose st rid sid hinv
  | breakSink rid sid => exact inv_breakSink st rid sid hinv

theorem inv_applyOps (st : ServerState) (ops : List Op) (hinv : INV st) :
    INV (applyOps st ops) := by
  induction ops generalizing st with
  | nil => exact hinv
  | cons op rest ih => exact ih (step st op) (inv_step st op hinv)

/-! ## Run evolution across operation sequences -/

theorem chatSt1_runs_existing (st : ServerState) (rid : Nat) (r : Run)
    (hwf : WF st) (h : st.runs rid = some r) : (chatSt1 st).runs rid = some r := by
  have hlt := runs_lt st rid r hwf h
  show setRun st.runs st.nextId (freshRun st.nextId) rid = some r
  rw [setRun_other _ _ _ _ (by omega)]
  exact h

theorem chatCore_runs_existing (st : ServerState) (tidOpt : Option Nat) (rid : Nat) (r : Run)
    (hwf : WF st) (h : st.runs rid = some r) : (chatCore st tidOpt).2.runs rid = some r := by
  have h1 := chatSt1_runs_existing st rid r hwf h
  unfold chatCore
  dsimp only
  cases tidOpt with
  | none => exact h1
  | some t =>
    dsimp only
    cases ht : (chatSt1 st).threads t with
    | none => exact h1
    | some th => exact h1

theorem handleChat_runs_existing (st : ServerState) (body : Option ChatBody) (rid : Nat) (r : Run)
    (hwf : WF st) (h : st.runs rid = some r) : (handleChat st body).2.runs rid = some r := by
  unfold handleChat
  cases body with
  | none => exact h
  | some data =>
    dsimp only
    cases hm : data.message with
    | none => exact h
    | some v =>
      cases v with
      | notStr => exact h
      | str m =>
        dsimp only
        by_cases ht : jsTrim m = ""
        · simp only [ht, if_pos rfl]; exact h
        · simp only [if_neg ht]; exact chatCore_runs_existing st data.threadId rid r hwf h

theorem handleStream_runs_at (st : ServerState) (rid0 rid : Nat) (r : Run)
    (h : st.runs rid = some r) :
    ∃ r', (handleStream st rid0).2.runs rid = some r' ∧
      r'.events = r.events ∧ r'.done = r.done := by
  unfold handleStream
  by_cases he : rid0 = rid
  · subst he
    rw [h]
    dsimp only
    exact ⟨_, setRun_self _ _ _, rfl, rfl⟩
  · cases h0 : st.runs rid0 with
    | none => exact ⟨r, h, rfl, rfl⟩
    | some r0 =>
      dsimp only
      refine ⟨r, ?_, rfl, rfl⟩
      show setRun st.runs rid0 _ rid = some r
      rw [setRun_other _ _ _ _ (Ne.symm he)]
      exact h

theorem pushEvent_runs_at (st : ServerState) (rid0 rid : Nat) (ev : Event) (r : Run)
    (h : st.runs rid = some r) :
    ∃ r', (pushEvent st rid0 ev).runs rid = some r' ∧
      r'.events = r.events ++ (if rid0 = rid then [ev] else []) ∧ r'.done = r.done := by
  unfold pushEvent
  by_cases he : rid0 = rid
  · subst he
    rw [h]
    dsimp only
    rw [if_pos rfl]
    exact ⟨_, setRun_self _ _ _, rfl, rfl⟩
  · rw [if_neg he]
    cases h0 : st.runs rid0 with
    | none => exact ⟨r, h, by simp, rfl⟩
    | some r0 =>
      dsimp only
      refine ⟨r, ?_, by simp, rfl⟩
      show setRun st.runs rid0 _ rid = some r
      rw [setRun_other _ _ _ _ (Ne.symm he)]
      exact h

theorem finishRun_runs_at (st : ServerState) (rid0 rid : Nat) (r : Run)
    (h : st.runs rid = some r) :
    ∃ r', (finishRun st rid0).runs rid = some r' ∧
      r'.events = r.events ∧ r'.done = (r.done || (if rid0 = rid then true else false)) := by
  unfold finishRun
  by_cases he : rid0 = rid
  · subst he
    rw [h]
    dsimp only
    rw [if_pos rfl]
    exact ⟨_, setRun_self _ _ _, rfl, by simp⟩
  · rw [if_neg he]
    cases h0 : st.runs rid0 with
    | none => exact ⟨r, h, rfl, by simp⟩
    | some r0 =>
      dsimp only
      refine ⟨r, ?_, rfl, by simp⟩
      show setRun st.runs rid0 _ rid = some r
      rw [setRun_other _ _ _ _ (Ne.symm he)]
      exact h

theorem connClose_runs_at (st : ServerState) (rid0 sid rid : Nat) (r : Run)
    (h : st.runs rid = some r) :
    ∃ r', (connClose st rid0 sid).runs rid = some r' ∧
      r'.events = r.events ∧ r'.done = r.done := by
  unfold connClose
  by_cases he : rid0 = rid
  · subst he
    rw [h]
    dsimp only
    exact ⟨_, setRun_self _ _ _, rfl, rfl⟩
  · cases h0 : st.runs rid0 with
    | none => exact ⟨r, h, rfl, rfl⟩
    | some r0 =>
      dsimp only
      refine ⟨r, ?_, rfl, rfl⟩
      show setRun st.runs rid0 _ rid = some r
      rw [setRun_other _ _ _ _ (Ne.symm he)]
      exact h

theorem breakSink_runs_at (st : ServerState) (rid0 sid rid : Nat) (r : Run)
    (h : st.runs rid = some r) :
    ∃ r', (breakSink st rid0 sid).runs rid = some r' ∧
      r'.events = r.events ∧ r'.done = r.done := by
  unfold breakSink
  by_cases he : rid0 = rid
  · subst he
    rw [h]
    dsimp only
    exact ⟨_, setRun_self _ _ _, rfl, rfl⟩
  · cases h0 : st.runs rid0 with
    | none => exact ⟨r, h, rfl, rfl⟩
    | some r0 =>
      dsimp only
      refine ⟨r, ?_, rfl, rfl⟩
      show setRun st.runs rid0 _ rid = some r
      rw [setRun_other _ _ _ _ (Ne.symm he)]
      exact h

theorem step_run (st : ServerState) (op : Op) (rid : Nat) (r : Run)
    (hwf : WF st) (h : st.runs rid = some r) :
    ∃ r', (step st op).runs rid = some r' ∧
      r'.events = r.events ++ pushedTo rid [op] ∧
      r'.done = (r.done || hasFinish rid [op]) := by
  cases op with
  | chat body =>
    refine ⟨r, handleChat_runs_existing st body rid r hwf h, ?_, ?_⟩
    · simp [pushedTo]
    · simp [hasFinish]
  | attach rid0 =>
    obtain ⟨r', h', he', hd'⟩ := handleStream_runs_at st rid0 rid r h
    refine ⟨r', h', ?_, ?_⟩
    · rw [he']; simp [pushedTo]
    · rw [hd']; simp [hasFinish]
  | push rid0 ev =>
    obtain ⟨r', h', he', hd'⟩ := pushEvent_runs_at st rid0 rid ev r h
    refine ⟨r', h', ?_, ?_⟩
    · rw [he']
      by_cases he : rid0 = rid <;> simp [pushedTo, he]
    · rw [hd']; simp [hasFinish]
  | finish rid0 =>
    obtain ⟨r', h', he', hd'⟩ := finishRun_runs_at st rid0 rid r h
    refine ⟨r', h', ?_, ?_⟩
    · rw [he']; simp [pushedTo]
    · rw [hd']
      by_cases he : rid0 = rid <;> simp [hasFinish, he]
  | connClose rid0 sid =>
    obtain ⟨r', h', he', hd'⟩ := connClose_runs_at st rid0 sid rid r h
    refine ⟨r', h', ?_, ?_⟩
    · rw [he']; simp [pushedTo]
    · rw [hd']; simp [hasFinish]
  | breakSink rid0 sid =>
    obtain ⟨r', h', he', hd'⟩ := breakSink_runs_at st rid0 sid rid r h
    refine ⟨r', h', ?_, ?_⟩
    · rw [he']; simp [pushedTo]
    · rw [hd']; simp [hasFinish]

theorem pushedTo_cons (rid : Nat) (op : Op) (ops : List Op) :
    pushedTo rid (op :: ops) = pushedTo rid [op] ++ pushedTo rid ops := by
  cases op with
  | push r0 ev => by_cases he : r0 = rid <;> simp [pushedTo, he]
  | chat b => simp [pushedTo]
  | attach a => simp [pushedTo]
  | finish a => by_cases he : a = rid <;> simp [pushedTo, he]
  | connClose a b => simp [pushedTo]
  | breakSink a b => simp [pushedTo]

theorem hasFinish_cons (rid : Nat) (op : Op) (ops : List Op) :
    hasFinish rid (op :: ops) = (hasFinish rid [op] || hasFinish rid ops) := by
  cases op with
  | push r0 ev => by_cases he : r0 = rid <;> simp [hasFinish, he]
  | chat b => simp [hasFinish]
  | attach a => simp [hasFinish]
  | finish a => by_cases he : a = rid <;> simp [hasFinish, he]
  | connClose a b => simp [hasFinish]
  | breakSink a b => simp [hasFinish]

/-- How the `events` and `done` fields of one run evolve over any operation sequence:
events grow exactly by the events pushed to that run, in order, and `done`
becomes true exactly when some finish targets the run. -/
theorem run_evolution (st : ServerState) (ops : List Op) (rid : Nat) (r : Run)
    (hwf : WF st) (h : st.runs rid = some r) :
    ∃ r', (applyOps st ops).runs rid = some r' ∧
      r'.events = r.events ++ pushedTo rid ops ∧
      r'.done = (r.done || hasFinish rid ops) := by
  induction ops generalizing st r with
  | nil => exact ⟨r, h, by simp [pushedTo], by simp [hasFinish]⟩
  | cons op rest ih =>
    obtain ⟨r1, h1, he1, hd1⟩ := step_run st op rid r hwf h
    obtain ⟨r2, h2, he2, hd2⟩ := ih (step st op) r1 (wf_step st op hwf) h1
    refine ⟨r2, h2, ?_, ?_⟩
    · rw [he2, he1, pushedTo_cons rid op rest, List.append_assoc]
    · rw [hd2, hd1, hasFinish_cons rid op rest, Bool.or_assoc]

/-! ## Producer operations and the pipeline -/

theorem pushedTo_prodOps (rid : Nat) (ops : List Op) :
    pushedTo rid ops = pushedTo rid (prodOps rid ops) := by
  induction ops with
  | nil => rfl
  | cons op rest ih =>
    cases op with
    | push r0 ev => by_cases he : r0 = rid <;> simp [pushedTo, prodOps, he, ih]
    | finish r0 => by_cases he : r0 = rid <;> simp [pushedTo, prodOps, he, ih]
    | chat b => simp [pushedTo, prodOps, ih]
    | attach a => simp [pushedTo, prodOps, ih]
    | connClose a b => simp [pushedTo, prodOps, ih]
    | breakSink a b => simp [pushedTo, prodOps, ih]

theorem hasFinish_prodOps (rid : Nat) (ops : List Op) :
    hasFinish rid ops = hasFinish rid (prodOps rid ops) := by
  induction ops with
  | nil => rfl
  | cons op rest ih =>
    cases op with
    | push r0 ev => by_cases he : r0 = rid <;> simp [hasFinish, prodOps, he, ih]
    | finish r0 => by_cases he : r0 = rid <;> simp [hasFinish, prodOps, he, ih]
    | chat b => simp [hasFinish, prodOps, ih]
    | attach a => simp [hasFinish, prodOps, ih]
    | connClose a b => simp [hasFinish, prodOps, ih]
    | breakSink a b => simp [hasFinish, prodOps, ih]

theorem prodOps_append (rid : Nat) (l1 l2 : List Op) :
    prodOps rid (l1 ++ l2) = prodOps rid l1 ++ prodOps rid l2 := by
  induction l1 with
  | nil => rfl
  | cons op rest ih =>
    cases op with
    | push r0 ev => by_cases he : r0 = rid <;> simp [prodOps, he, ih]
    | finish r0 => by_cases he : r0 = rid <;> simp [prodOps, he, ih]
    | chat b => simp [prodOps, ih]
    | attach a => simp [prodOps, ih]
    | connClose a b => simp [prodOps, ih]
    | breakSink a b => simp [prodOps, ih]

theorem pushedTo_map_push (rid : Nat) (evs : List Event) (ops : List Op) :
    pushedTo rid (evs.map (Op.push rid) ++ ops) = evs ++ pushedTo rid ops := by
  induction evs with
  | nil => rfl
  | cons e es ih => simp [pushedTo, ih]

theorem hasFinish_map_push (rid : Nat) (evs : List Event) (ops : List Op) :
    hasFinish rid (evs.map (Op.push rid) ++ ops) = hasFinish rid ops := by
  induction evs with
  | nil => rfl
  | cons e es ih => simp [hasFinish, ih]

theorem pushedTo_pipelineOps (rid : Nat) (msg : String) (cid tid : Nat)
    (gen : Except String String) :
    pushedTo rid (pipelineOps rid msg cid tid gen) = pipelineEvents msg cid tid gen := by
  unfold pipelineOps
  rw [pushedTo_map_push]
  simp [pushedTo]

theorem hasFinish_pipelineOps (rid : Nat) (msg : String) (cid tid : Nat)
    (gen : Except String String) :
    hasFinish rid (pipelineOps rid msg cid tid gen) = true := by
  unfold pipelineOps
  rw [hasFinish_map_push]
  simp [hasFinish]

/-! ## Explicit one-step descriptions -/

theorem pushEvent_eq (st : ServerState) (rid : Nat) (r : Run) (ev : Event)
    (h : st.runs rid = some r) :
    (pushEvent st rid ev).runs rid =
      some { r with events := r.events ++ [ev], clients := r.clients.map (writeSink ev) } := by
  unfold pushEvent
  rw [h]
  dsimp only
  exact setRun_self _ _ _

theorem finishRun_eq (st : ServerState) (rid : Nat) (r : Run)
    (h : st.runs rid = some r) :
    (finishRun st rid).runs rid =
      some { r with done := true, clients := r.clients.map closeSink } := by
  unfold finishRun
  rw [h]
  dsimp only
  exact setRun_self _ _ _

theorem handleStream_eq (st : ServerState) (rid : Nat) (r : Run)
    (h : st.runs rid = some r) :
    handleStream st rid =
      (StreamOutcome.attached st.nextId,
        { st with
          runs := setRun st.runs rid
            ({ r with clients := r.clients ++
                [{ sid := st.nextId, written := r.events, closed := false, broken := false }] }),
          nextId := st.nextId + 1 }) := by
  unfold handleStream
  rw [h]

theorem handleStream_notFound_iff (st : ServerState) (rid : Nat) :
    (handleStream st rid).1 = StreamOutcome.notFound ↔ st.runs rid = none := by
  unfold handleStream
  cases h : st.runs rid with
  | none => simp
  | some r => simp

theorem writeSink_healthy (ev : Event) (s : Sink)
    (hb : s.broken = false) (hc : s.closed = false) :
    writeSink ev s = { s with written := s.written ++ [ev] } := by
  simp [writeSink, hb, hc]

/-! ## Concrete sample data used by witnesses and counterexamples -/

def bodyHello : ChatBody := { message := some (JVal.str "hello"), threadId := none }

def bodyBad : ChatBody := { message := some (JVal.str "   "), threadId := none }

def evU : Event := Event.tool_start "search" "hello" 9

def evV : Event := Event.tool_done "search" "out" 9

/-- The sink created at attach time: registered and pre-loaded with the
full replay of the current events of the run. -/
def replaySink (st : ServerState) (r : Run) : Sink :=
  { sid := st.nextId, written := r.events, closed := false, broken := false }

def attachClients (st : ServerState) (r : Run) : List Sink :=
  r.clients ++ [replaySink st r]

/-! ## Claim theorems -/

/-- C1: Replay completeness.  For every run and every attach point, an
observer whose sink was registered by `handleStream` when exactly the
events `r₁.events` had been appended ends up, after any further operation
sequence `ops₂` (concurrent appends, other attaches, disconnects,
transport failures, the finish), having received exactly those events
followed by exactly the events appended to the run after its attachment,
in append order, with no duplicate and no gap — its `written` log equals
the full event log of the run. -/
theorem C1_replay_completeness (ops₁ : List Op) (rid : Nat) (r₁ : Run)
    (h₁ : (applyOps initState ops₁).runs rid = some r₁)
    (ops₂ : List Op) (r₃ : Run) (s : Sink)
    (h₃ : (applyOps (handleStream (applyOps initState ops₁) rid).2 ops₂).runs rid = some r₃)
    (hmem : s ∈ r₃.clients)
    (_hsid : s.sid = (applyOps initState ops₁).nextId)
    (hb : s.broken = false) (hc : s.closed = false) :
    s.written = r₁.events ++ pushedTo rid ops₂ ∧
    r₃.events = r₁.events ++ pushedTo rid ops₂ := by
  have hwf1 : WF (applyOps initState ops₁) := wf_applyOps _ _ wf_initState
  have hinv1 : INV (applyOps initState ops₁) := inv_applyOps _ _ inv_initState
  have hwf2 : WF (handleStream (applyOps initState ops₁) rid).2 :=
    wf_handleStream _ rid hwf1
  have hinv2 : INV (handleStream (applyOps initState ops₁) rid).2 :=
    inv_handleStream _ rid hinv1
  have heq := handleStream_eq (applyOps initState ops₁) rid r₁ h₁
  have hr₂ : (handleStream (applyOps initState ops₁) rid).2.runs rid =
      some { r₁ with clients := attachClients (applyOps initState ops₁) r₁ } := by
    rw [heq]
    dsimp only
    exact setRun_self _ _ _
  obtain ⟨r₃', h₃', he₃, hd₃⟩ := run_evolution _ ops₂ rid _ hwf2 hr₂
  rw [h₃] at h₃'
  injection h₃' with hr
  subst hr
  have he₃' : r₃.events = r₁.events ++ pushedTo rid ops₂ := by simpa using he₃
  have hw := inv_applyOps _ ops₂ hinv2 rid r₃ h₃ s hmem hb hc
  exact ⟨by rw [hw, he₃'], he₃'⟩

/-- C1 witness: a producer appends one event, an observer attaches, a
second event is appended; the observer has received both, in order. -/
theorem C1_witness :
    ({ sid := 2, written := [evU, evV], closed := false, broken := false } : Sink).written =
      ({ id := 0, events := [evU], clients := [], done := false } : Run).events ++
        pushedTo 0 [Op.push 0 evV] ∧
    ({ id := 0, events := [evU, evV],
       clients := [{ sid := 2, written := [evU, evV], closed := false, broken := false }],
       done := false } : Run).events =
      ({ id := 0, events := [evU], clients := [], done := false } : Run).events ++
        pushedTo 0 [Op.push 0 evV] :=
  C1_replay_completeness [Op.chat (some bodyHello), Op.push 0 evU] 0
    { id := 0, events := [evU], clients := [], done := false } (by decide)
    [Op.push 0 evV]
    { id := 0, events := [evU, evV],
      clients := [{ sid := 2, written := [evU, evV], closed := false, broken := false }],
      done := false }
    { sid := 2, written := [evU, evV], closed := false, broken := false }
    (by decide) (by decide) (by decide) rfl rfl

/-- C4 counterexample: after the run is done (`Op.finish 0`), a push is
not rejected — it extends the event log.  The first conjunct shows the
run was done before the push; the second shows the appended event. -/
theorem C4_counterexample :
    ((applyOps initState [Op.chat (some bodyHello), Op.finish 0]).runs 0 |>.map Run.done) =
      some true ∧
    ((applyOps initState [Op.chat (some bodyHello), Op.finish 0, Op.push 0 evU]).runs 0
      |>.map Run.events) = some [evU] := by
  decide

/-- C4 (amended): `pushEvent` performs no `done` check.  Appending to a
run whose `done` flag is already true succeeds — it extends the log and
writes to the attached sinks — instead of failing with `InvalidState`.
(In the program as written the pipeline never appends after its finish.) -/
theorem C4_amended_append_after_done (st : ServerState) (rid : Nat) (r : Run) (ev : Event)
    (h : st.runs rid = some r) (hdone : r.done = true) :
    (pushEvent st rid ev).runs rid =
      some { r with events := r.events ++ [ev], clients := r.clients.map (writeSink ev) } ∧
    (∀ r', (pushEvent st rid ev).runs rid = some r' → r'.done = true) := by
  have he := pushEvent_eq st rid r ev h
  refine ⟨he, fun r' h' => ?_⟩
  rw [he] at h'
  injection h' with hr
  rw [← hr]
  exact hdone

/-- C4 witness: the amended statement evaluated on a finished run. -/
theorem C4_witness :
    (pushEvent (applyOps initState [Op.chat (some bodyHello), Op.finish 0]) 0 evU).runs 0 =
      some { id := 0, events := [evU], clients := [], done := true } :=
  (C4_amended_append_after_done (applyOps initState [Op.chat (some bodyHello), Op.finish 0]) 0
    { id := 0, events := [], clients := [], done := true } evU (by decide) rfl).1

/-- C7 counterexample: two observers are attached, the transport of the
first (sid 2) fails, then an event is appended.  The event is logged and
delivered to the healthy observer, but the failing sink is NOT detached:
it is still in the subscriber set, with the event missing from it. -/
theorem C7_counterexample :
    (applyOps initState
      [Op.chat (some bodyHello), Op.attach 0, Op.attach 0, Op.breakSink 0 2, Op.push 0 evU]).runs 0 =
      some { id := 0, events := [evU],
             clients := [{ sid := 2, written := [], closed := false, broken := true },
                         { sid := 3, written := [evU], closed := false, broken := false }],
             done := false } := by
  decide

/-- C7 (amended): when the transport of one attached sink has failed, an
append still records the event in the log, still delivers it to every
other healthy attached sink, and does not abort; but the failing sink is
not detached by the append — it stays in the subscriber set with its
write silently dropped (it is removed only when its connection-close
event is processed). -/
theorem C7_amended_sink_failure_not_detached (st : ServerState) (rid : Nat) (r : Run) (ev : Event)
    (h : st.runs rid = some r) :
    (pushEvent st rid ev).runs rid =
      some { r with events := r.events ++ [ev], clients := r.clients.map (writeSink ev) } ∧
    (∀ s, s ∈ r.clients → s.broken = true →
       writeSink ev s = s ∧ s ∈ r.clients.map (writeSink ev)) ∧
    (∀ s, s ∈ r.clients → s.broken = false → s.closed = false →
       { s with written := s.written ++ [ev] } ∈ r.clients.map (writeSink ev)) := by
  refine ⟨pushEvent_eq st rid r ev h, fun s hs hbr => ?_, fun s hs hb hc => ?_⟩
  · have hw : writeSink ev s = s := by simp [writeSink, hbr]
    exact ⟨hw, List.mem_map.mpr ⟨s, hs, hw⟩⟩
  · exact List.mem_map.mpr ⟨s, hs, writeSink_healthy ev s hb hc⟩

/-- C7 witness: the amended statement evaluated on a run with one broken
and one healthy subscriber. -/
theorem C7_witness :
    (pushEvent (applyOps initState
        [Op.chat (some bodyHello), Op.attach 0, Op.attach 0, Op.breakSink 0 2]) 0 evU).runs 0 =
      some { id := 0, events := [evU],
             clients := [{ sid := 2, written := [], closed := false, broken := true },
                         { sid := 3, written := [evU], closed := false, broken := false }],
             done := false } ∧
    writeSink evU { sid := 2, written := [], closed := false, broken := true } =
      { sid := 2, written := [], closed := false, broken := true } ∧
    ({ sid := 3, written := [evU], closed := false, broken := false } : Sink) ∈
      [({ sid := 2, written := [], closed := false, broken := true } : Sink),
       { sid := 3, written := [], closed := false, broken := false }].map (writeSink evU) := by
  have h := C7_amended_sink_failure_not_detached
    (applyOps initState [Op.chat (some bodyHello), Op.attach 0, Op.attach 0, Op.breakSink 0 2]) 0
    { id := 0, events := [],
      clients := [{ sid := 2, written := [], closed := false, broken := true },
                  { sid := 3, written := [], closed := false, broken := false }],
      done := false }
    evU (by decide)
  exact ⟨h.1,
    (h.2.1 { sid := 2, written := [], closed := false, broken := true } (by decide) rfl).1,
    h.2.2 { sid := 3, written := [], closed := false, broken := false } (by decide) rfl rfl⟩

/-- C10: the static-file guard is a plain string-prefix check with no
trailing separator, so a request whose resolved path lands in a sibling
directory whose name extends the public-directory name passes the guard
while lying outside the public directory — contradicting both the claim
and the source comment that requests outside public will throw.  The
final two conjuncts confirm the guard does admit a genuine public file. -/
theorem C10_static_confinement_bug :
    staticAllowed "/srv/public" "/../publicX/secret.txt" = true ∧
    resolveUnder "/srv/public" "/../publicX/secret.txt" = "/srv/publicX/secret.txt" ∧
    insideDir "/srv/public" "/srv/publicX/secret.txt" = false ∧
    staticAllowed "/srv/public" "/index.html" = true ∧
    resolveUnder "/srv/public" "/index.html" = "/srv/public/index.html" ∧
    insideDir "/srv/public" "/srv/public/index.html" = true := by
  decide

/-- C2 counterexample: a run produces one event and finishes (reaching
`Closed`, all then-attached sinks closed); an observer then attaches.  It
receives the full replay, but its sink is left open (`closed = false`)
even though the run is already `Closed` — the server never ends a
late-attached response, refuting "the sink is closed exactly when the run
reaches Closed" and "a late attacher observes closure of its sink". -/
theorem C2_counterexample :
    (applyOps initState
      [Op.chat (some bodyHello), Op.push 0 evU, Op.finish 0, Op.attach 0]).runs 0 =
      some { id := 0, events := [evU],
             clients := [{ sid := 2, written := [evU], closed := false, broken := false }],
             done := true } := by
  decide

/-- C2 (amended): attaching returns `notFound` exactly when no run with
the id exists; otherwise the observer is registered with the full replay
already written to its sink; sinks attached when `finish` runs are closed
by it; but an observer attaching after the run is done receives the full
replay with its sink left open — it never observes server-side closure. -/
theorem C2_amended_attach_contract (st : ServerState) (rid : Nat) :
    ((handleStream st rid).1 = StreamOutcome.notFound ↔ st.runs rid = none) ∧
    (∀ r, st.runs rid = some r →
      (handleStream st rid).2.runs rid = some { r with clients := attachClients st r } ∧
      (replaySink st r).written = r.events) ∧
    (∀ r, st.runs rid = some r →
      (finishRun st rid).runs rid =
        some { r with done := true, clients := r.clients.map closeSink } ∧
      (∀ s, s ∈ r.clients.map closeSink → s.closed = true)) ∧
    (∀ r, st.runs rid = some r → r.done = true →
      (handleStream st rid).2.runs rid = some { r with clients := attachClients st r } ∧
      (replaySink st r).written = r.events ∧ (replaySink st r).closed = false) := by
  refine ⟨handleStream_notFound_iff st rid, fun r h => ?_, fun r h => ?_, fun r h hdone => ?_⟩
  · constructor
    · rw [handleStream_eq st rid r h]
      dsimp only
      exact setRun_self _ _ _
    · rfl
  · refine ⟨finishRun_eq st rid r h, fun s hs => ?_⟩
    rcases List.mem_map.mp hs with ⟨s0, _, hw⟩
    rw [← hw]
    rfl
  · refine ⟨?_, rfl, rfl⟩
    rw [handleStream_eq st rid r h]
    dsimp only
    exact setRun_self _ _ _

/-- C2 witness: the amended contract evaluated on an unknown run id and
on a finished run with a late attacher. -/
theorem C2_witness :
    (handleStream initState 5).1 = StreamOutcome.notFound ∧
    (handleStream (applyOps initState [Op.chat (some bodyHello), Op.finish 0]) 0).2.runs 0 =
      some { id := 0, events := [],
             clients := [{ sid := 2, written := [], closed := false, broken := false }],
             done := true } ∧
    (replaySink (applyOps initState [Op.chat (some bodyHello), Op.finish 0])
       { id := 0, events := [], clients := [], done := true }).closed = false := by
  have hmiss := (C2_amended_attach_contract initState 5).1.mpr rfl
  have hlate := (C2_amended_attach_contract
      (applyOps initState [Op.chat (some bodyHello), Op.finish 0]) 0).2.2.2
      { id := 0, events := [], clients := [], done := true } (by decide) rfl
  exact ⟨hmiss, hlate.1, hlate.2.2⟩

/-- C3 counterexample: after the run is done, a subsequent attach adds a
new, open sink to the subscriber set — refuting that the subscriber set
is empty once `done` is true and stays so under every later operation. -/
theorem C3_counterexample :
    (applyOps initState [Op.chat (some bodyHello), Op.finish 0, Op.attach 0]).runs 0 =
      some { id := 0, events := [],
             clients := [{ sid := 2, written := [], closed := false, broken := false }],
             done := true } := by
  decide

/-- C3 (amended): once `done` is set by `finish`, the event log changes
only through push operations (none occur after the finish in program
traces), and `finish` closes every then-attached sink but leaves the
closed sinks in the subscriber set; a later attach adds a new open,
fully-replayed subscriber, so the set need not be empty after `done`. -/
theorem C3_amended_post_completion (st : ServerState) (rid : Nat) (r : Run)
    (h : st.runs rid = some r) :
    ((finishRun st rid).runs rid =
        some { r with done := true, clients := r.clients.map closeSink } ∧
      (r.clients.map closeSink).length = r.clients.length ∧
      (∀ s, s ∈ r.clients.map closeSink → s.closed = true)) ∧
    (WF st → ∀ ops r', pushedTo rid ops = [] →
      (applyOps st ops).runs rid = some r' → r'.events = r.events) ∧
    (r.done = true →
      (handleStream st rid).2.runs rid = some { r with clients := attachClients st r } ∧
      (replaySink st r).closed = false ∧ (replaySink st r).written = r.events) := by
  refine ⟨⟨finishRun_eq st rid r h, by simp, fun s hs => ?_⟩, fun hwf ops r' hp h' => ?_, fun hd => ?_⟩
  · rcases List.mem_map.mp hs with ⟨s0, _, hw⟩
    rw [← hw]
    rfl
  · obtain ⟨r2, h2, he2, _⟩ := run_evolution st ops rid r hwf h
    rw [h'] at h2
    injection h2 with hr
    subst hr
    rw [he2, hp, List.append_nil]
  · refine ⟨?_, rfl, rfl⟩
    rw [handleStream_eq st rid r h]
    dsimp only
    exact setRun_self _ _ _

/-- C3 witness: the amended statement evaluated on a finished run,
followed by a late attach. -/
theorem C3_witness :
    (applyOps (applyOps initState [Op.chat (some bodyHello), Op.finish 0]) [Op.attach 0]).runs 0 =
      some { id := 0, events := [],
             clients := [{ sid := 2, written := [], closed := false, broken := false }],
             done := true } ∧
    (replaySink (applyOps initState [Op.chat (some bodyHello), Op.finish 0])
       { id := 0, events := [], clients := [], done := true }).closed = false := by
  have h := (C3_amended_post_completion
      (applyOps initState [Op.chat (some bodyHello), Op.finish 0]) 0
      { id := 0, events := [], clients := [], done := true } (by decide)).2.2 rfl
  exact ⟨h.1, h.2.1⟩

/-- C5: Single terminal event.  For any run created empty whose
producer-side operations are exactly one pipeline invocation (its pushes
in program order and its final finish), interleaved arbitrarily with
observer operations: the final event log is exactly the pipeline events,
containing exactly one `assistant_done`, which is its last element, and
the run is done — whether the response-generation step returns (`ok`) or
throws (`error`). -/
theorem C5_single_terminal_event (st₀ : ServerState) (ops : List Op) (rid : Nat)
    (msg : String) (cid tid : Nat) (gen : Except String String) (r₀ r' : Run)
    (hwf : WF st₀) (h₀ : st₀.runs rid = some r₀) (hev : r₀.events = [])
    (hprod : prodOps rid ops = pipelineOps rid msg cid tid gen)
    (h' : (applyOps st₀ ops).runs rid = some r') :
    r'.events = pipelineEvents msg cid tid gen ∧
    countTerminal r'.events = 1 ∧
    r'.events.getLast? = some (pipelineTerminal tid gen) ∧
    r'.done = true := by
  obtain ⟨r₂, h₂, he, hd⟩ := run_evolution st₀ ops rid r₀ hwf h₀
  rw [h'] at h₂
  injection h₂ with hr
  subst hr
  have hpush : pushedTo rid ops = pipelineEvents msg cid tid gen := by
    rw [pushedTo_prodOps, hprod, pushedTo_pipelineOps]
  have hfin : hasFinish rid ops = true := by
    rw [hasFinish_prodOps, hprod, hasFinish_pipelineOps]
  have hev' : r'.events = pipelineEvents msg cid tid gen := by
    rw [he, hev, hpush, List.nil_append]
  refine ⟨hev', ?_, ?_, ?_⟩
  · rw [hev']
    cases gen <;> simp [pipelineEvents, countTerminal, isTerminal, pipelineTerminal]
  · rw [hev']
    rfl
  · rw [hd, hfin, Bool.or_true]

/-- The final run state of the successful sample pipeline. -/
def runC5 : Run :=
  { id := 0, events := pipelineEvents "hello" 2 1 (Except.ok "reply"), clients := [],
    done := true }

/-- C5 witness: the successful pipeline, run to completion. -/
theorem C5_witness :
    runC5.events = pipelineEvents "hello" 2 1 (Except.ok "reply") ∧
    countTerminal runC5.events = 1 ∧
    runC5.events.getLast? = some (pipelineTerminal 1 (Except.ok "reply")) ∧
    runC5.done = true :=
  C5_single_terminal_event (applyOps initState [Op.chat (some bodyHello)])
    (pipelineOps 0 "hello" 2 1 (Except.ok "reply")) 0 "hello" 2 1 (Except.ok "reply")
    (freshRun 0) runC5
    (wf_applyOps initState [Op.chat (some bodyHello)] wf_initState)
    (by decide) rfl (by decide) (by decide)

/-- C6: Closure guarantee with collaborator-failure recovery.  For any
run created empty whose producer-side operations are one pipeline
invocation ending in its `finally` finish, at the moment that finish
completes: the run is done, every attached subscriber sink is closed, the
pipeline performed no earlier finish (finish ran exactly once), the log
is exactly the pipeline events, and on collaborator failure the last
event before closure is the `assistant_done` carrying the failure text. -/
theorem C6_closure_guarantee (st₀ : ServerState) (pre : List Op) (rid : Nat)
    (msg : String) (cid tid : Nat) (gen : Except String String) (r₀ r' : Run)
    (hwf : WF st₀) (h₀ : st₀.runs rid = some r₀) (hev : r₀.events = [])
    (hprod : prodOps rid (pre ++ [Op.finish rid]) = pipelineOps rid msg cid tid gen)
    (h' : (applyOps st₀ (pre ++ [Op.finish rid])).runs rid = some r') :
    r'.done = true ∧
    (∀ s, s ∈ r'.clients → s.closed = true) ∧
    hasFinish rid pre = false ∧
    r'.events = pipelineEvents msg cid tid gen ∧
    (∀ e, gen = Except.error e →
      r'.events.getLast? =
        some (Event.assistant_done ("An error occurred: " ++ e) tid)) := by
  have hsplit : prodOps rid pre ++ [Op.finish rid] =
      (pipelineEvents msg cid tid gen).map (Op.push rid) ++ [Op.finish rid] := by
    have h1 := prodOps_append rid pre [Op.finish rid]
    rw [hprod] at h1
    have h2 : prodOps rid [Op.finish rid] = [Op.finish rid] := by simp [prodOps]
    rw [h2] at h1
    rw [← h1]
    rfl
  have hpre : prodOps rid pre = (pipelineEvents msg cid tid gen).map (Op.push rid) :=
    (List.append_inj' hsplit rfl).1
  have hfinpre : hasFinish rid pre = false := by
    rw [hasFinish_prodOps, hpre]
    have := hasFinish_map_push rid (pipelineEvents msg cid tid gen) []
    rw [List.append_nil] at this
    rw [this]
    rfl
  have hpushpre : pushedTo rid pre = pipelineEvents msg cid tid gen := by
    rw [pushedTo_prodOps, hpre]
    have := pushedTo_map_push rid (pipelineEvents msg cid tid gen) []
    rw [List.append_nil] at this
    rw [this]
    rfl
  obtain ⟨rPre, hPre, hePre, hdPre⟩ := run_evolution st₀ pre rid r₀ hwf h₀
  have hstep : (applyOps st₀ (pre ++ [Op.finish rid])).runs rid =
      (finishRun (applyOps st₀ pre) rid).runs rid := by
    rw [applyOps_append]
    rfl
  rw [hstep, finishRun_eq (applyOps st₀ pre) rid rPre hPre] at h'
  injection h' with hr
  have hre : r'.events = pipelineEvents msg cid tid gen := by
    rw [← hr]
    show rPre.events = pipelineEvents msg cid tid gen
    rw [hePre, hev, hpushpre, List.nil_append]
  refine ⟨?_, ?_, hfinpre, hre, ?_⟩
  · rw [← hr]
  · intro s hs
    rw [← hr] at hs
    have hs' : s ∈ rPre.clients.map closeSink := hs
    rcases List.mem_map.mp hs' with ⟨s0, _, hw⟩
    rw [← hw]
    rfl
  · intro e hgen
    rw [hre, hgen]
    rfl

/-- The observer sink at the end of the failing sample pipeline. -/
def sinkC6 : Sink :=
  { sid := 2, written := pipelineEvents "hello" 2 1 (Except.error "boom"), closed := true,
    broken := false }

/-- The final run state of the failing sample pipeline. -/
def runC6 : Run :=
  { id := 0, events := pipelineEvents "hello" 2 1 (Except.error "boom"), clients := [sinkC6],
    done := true }

/-- The pre-finish operations of the failing sample pipeline, with an
observer attach interleaved. -/
def preC6 : List Op :=
  [Op.push 0 (Event.tool_start "search" "hello" 2),
   Op.push 0 (Event.tool_done "search" fakeResults 2), Op.attach 0,
   Op.push 0 (pipelineTerminal 1 (Except.error "boom"))]

/-- C6 witness: the failing pipeline with an attached observer — the
observer sink ends closed, the finish ran once, and the log carries the
error terminal event. -/
theorem C6_witness :
    runC6.done = true ∧
    hasFinish 0 preC6 = false ∧
    runC6.events = pipelineEvents "hello" 2 1 (Except.error "boom") := by
  have h := C6_closure_guarantee (applyOps initState [Op.chat (some bodyHello)]) preC6 0
    "hello" 2 1 (Except.error "boom") (freshRun 0) runC6
    (wf_applyOps initState [Op.chat (some bodyHello)] wf_initState)
    (by decide) rfl (by decide) (by decide)
  exact ⟨h.1, h.2.2.1, h.2.2.2.1⟩

/-! ## Chat endpoint lemmas -/

theorem handleChat_invalid (st : ServerState) (data : ChatBody)
    (hv : validMessage data.message = false) :
    handleChat st (some data) =
      ({ status := 400, runId := none, threadId := none,
         error := some "message is required" }, st) := by
  obtain ⟨msg, tidOpt⟩ := data
  cases msg with
  | none => rfl
  | some v =>
    cases v with
    | notStr => rfl
    | str m =>
      have ht : jsTrim m = "" := by simpa [validMessage] using hv
      unfold handleChat
      dsimp only
      rw [if_pos ht]

theorem handleChat_valid (st : ServerState) (data : ChatBody)
    (hv : validMessage data.message = true) :
    handleChat st (some data) = chatCore st data.threadId := by
  obtain ⟨msg, tidOpt⟩ := data
  cases msg with
  | none => exact absurd hv (by simp [validMessage])
  | some v =>
    cases v with
    | notStr => exact absurd hv (by simp [validMessage])
    | str m =>
      have ht : ¬jsTrim m = "" := by simpa [validMessage] using hv
      unfold handleChat
      dsimp only
      rw [if_neg ht]

theorem chatCore_spec (st : ServerState) (tidOpt : Option Nat) :
    (chatCore st tidOpt).1.status = 200 ∧
    (chatCore st tidOpt).1.runId = some st.nextId ∧
    (chatCore st tidOpt).2.runs st.nextId = some (freshRun st.nextId) ∧
    ∃ t, (chatCore st tidOpt).1.threadId = some t := by
  unfold chatCore
  dsimp only
  cases tidOpt with
  | none =>
    refine ⟨rfl, rfl, ?_, ⟨(chatSt1 st).nextId, rfl⟩⟩
    show (chatSt1 st).runs st.nextId = some (freshRun st.nextId)
    exact setRun_self _ _ _
  | some t =>
    dsimp only
    cases ht : (chatSt1 st).threads t with
    | none =>
      refine ⟨rfl, rfl, ?_, ⟨(chatSt1 st).nextId, rfl⟩⟩
      show (chatSt1 st).runs st.nextId = some (freshRun st.nextId)
      exact setRun_self _ _ _
    | some th =>
      refine ⟨rfl, rfl, ?_, ⟨t, rfl⟩⟩
      show (chatSt1 st).runs st.nextId = some (freshRun st.nextId)
      exact setRun_self _ _ _

theorem chatCore_known (st : ServerState) (t : Nat) (th : Thread)
    (ht : st.threads t = some th) :
    chatCore st (some t) =
      ({ status := 200, runId := some st.nextId, threadId := some t, error := none },
        chatSt1 st) := by
  unfold chatCore
  dsimp only
  have ht1 : (chatSt1 st).threads t = some th := ht
  rw [ht1]

theorem chatCore_fresh (st : ServerState) (tidOpt : Option Nat)
    (hun : ∀ t, tidOpt = some t → st.threads t = none) :
    chatCore st tidOpt = chatFresh (chatSt1 st) st.nextId := by
  unfold chatCore
  dsimp only
  cases tidOpt with
  | none => rfl
  | some t =>
    dsimp only
    have ht1 : (chatSt1 st).threads t = none := hun t rfl
    rw [ht1]

/-- C8: Inbound request validation.  For any parsed chat body: when the
message field is absent, not a string, or empty after trimming, the
request fails with status 400 and the state — in particular the run
registry — is unchanged; otherwise a run is created (stored empty under
the fresh run id) and the response carries that run id and a thread id. -/
theorem C8_request_validation (st : ServerState) (data : ChatBody)
    (resp : ChatResponse) (st' : ServerState)
    (h : handleChat st (some data) = (resp, st')) :
    (validMessage data.message = false →
      resp.status = 400 ∧ resp.runId = none ∧ st' = st) ∧
    (validMessage data.message = true →
      resp.status = 200 ∧ resp.runId = some st.nextId ∧
      st'.runs st.nextId = some (freshRun st.nextId) ∧
      ∃ t, resp.threadId = some t) := by
  constructor
  · intro hv
    rw [handleChat_invalid st data hv] at h
    injection h with h1 h2
    exact ⟨by rw [← h1], by rw [← h1], h2.symm⟩
  · intro hv
    rw [handleChat_valid st data hv] at h
    have hspec := chatCore_spec st data.threadId
    have h1 := congrArg Prod.fst h
    have h2 := congrArg Prod.snd h
    dsimp only at h1 h2
    refine ⟨?_, ?_, ?_, ?_⟩
    · rw [← h1]; exact hspec.1
    · rw [← h1]; exact hspec.2.1
    · rw [← h2]; exact hspec.2.2.1
    · rw [← h1]; exact hspec.2.2.2

/-- C8 witness: a whitespace-only message is rejected with 400 and no
state change; a proper message creates the run and returns its id. -/
theorem C8_witness :
    ((handleChat initState (some bodyBad)).1.status = 400 ∧
     (handleChat initState (some bodyBad)).1.runId = none ∧
     (handleChat initState (some bodyBad)).2 = initState) ∧
    ((handleChat initState (some bodyHello)).1.status = 200 ∧
     (handleChat initState (some bodyHello)).1.runId = some 0 ∧
     (handleChat initState (some bodyHello)).2.runs 0 = some (freshRun 0)) := by
  have h1 := (C8_request_validation initState bodyBad _ _ rfl).1 (by decide)
  have h2 := (C8_request_validation initState bodyHello _ _ rfl).2 (by decide)
  exact ⟨⟨h1.1, h1.2.1, h1.2.2⟩, ⟨h2.1, h2.2.1, h2.2.2.1⟩⟩

/-- C9: Thread resolution.  For a valid chat request: when the supplied
thread id names a stored thread, that thread is reused — the response
carries the same thread id, the thread store is unchanged, and the
returned run id is fresh (not previously issued, i.e. not in the run
registry); when the thread id is absent or unknown, a new thread with a
fresh id is allocated, stored, and returned, again with a fresh run id. -/
theorem C9_thread_resolution (st : ServerState) (m : String) (tidOpt : Option Nat)
    (resp : ChatResponse) (st' : ServerState)
    (hwf : WF st) (hm : jsTrim m ≠ "")
    (h : handleChat st (some { message := some (JVal.str m), threadId := tidOpt }) =
      (resp, st')) :
    (∀ t th, tidOpt = some t → st.threads t = some th →
      resp.threadId = some t ∧ resp.runId = some st.nextId ∧
      st.runs st.nextId = none ∧ st'.threads = st.threads) ∧
    ((tidOpt = none ∨ ∃ t, tidOpt = some t ∧ st.threads t = none) →
      ∃ nt, resp.threadId = some nt ∧ resp.runId = some st.nextId ∧
        st.runs st.nextId = none ∧ st.threads nt = none ∧
        st'.threads nt = some { id := nt, history := [] }) := by
  have hfresh0 : st.runs st.nextId = none := hwf.1 st.nextId (le_refl _)
  have hvalid : validMessage (some (JVal.str m)) = true := by simp [validMessage, hm]
  rw [handleChat_valid st _ hvalid] at h
  dsimp only at h
  constructor
  · intro t th htid hth
    subst htid
    rw [chatCore_known st t th hth] at h
    injection h with h1 h2
    refine ⟨by rw [← h1], by rw [← h1], hfresh0, ?_⟩
    rw [← h2]
    rfl
  · intro hun
    have hun' : ∀ t, tidOpt = some t → st.threads t = none := by
      intro t htid
      rcases hun with hnone | ⟨t', ht', hthr⟩
      · rw [htid] at hnone; exact Option.noConfusion hnone
      · rw [htid] at ht'
        injection ht' with he
        rw [he]
        exact hthr
    rw [chatCore_fresh st tidOpt hun'] at h
    injection h with h1 h2
    refine ⟨st.nextId + 1, ?_, ?_, hfresh0, ?_, ?_⟩
    · rw [← h1]; rfl
    · rw [← h1]
    · exact hwf.2 (st.nextId + 1) (by omega)
    · rw [← h2]
      exact setThread_self _ _ _

/-- A state holding one finished conversation: run 0 and thread 1. -/
def st9 : ServerState := applyOps initState [Op.chat (some bodyHello)]

def bodyReuse : ChatBody := { message := some (JVal.str "again"), threadId := some 1 }

/-- C9 witness: posting again with the stored thread id 1 reuses it and
issues the fresh run id 2. -/
theorem C9_witness :
    (handleChat st9 (some bodyReuse)).1.threadId = some 1 ∧
    (handleChat st9 (some bodyReuse)).1.runId = some 2 ∧
    st9.runs 2 = none ∧
    (handleChat st9 (some bodyReuse)).2.threads = st9.threads := by
  have h := (C9_thread_resolution st9 "again" (some 1) _ _
      (wf_applyOps initState [Op.chat (some bodyHello)] wf_initState)
      (by decide) rfl).1 1 { id := 1, history := [] } rfl (by decide)
  exact h

end AgentServer
